import Mathlib

/-!
Verification of the RLP block codec in `crates/consensus/src/block.rs`.

The source file defines `Block<T>` and `BlockBody<T>` together with manual
RLP `Encodable`/`Decodable` implementations that flatten the two-level
`Block` structure into a single RLP list via the `Helper` (decode view) and
`HelperRef` (encode view) structs, both derived with `#[rlp(trailing)]`.

The RLP engine itself (the `alloy_rlp` length-prefix rules, the derive
expansion for `#[rlp(trailing)]`, and the external `Header`, `Withdrawal`,
`Requests` and transaction types) is not part of the excerpted sources, so
those parts are modelled from the specification (sections 4.1-4.3, 6 and 7):
length-prefixed items, a list codec that slices the declared payload, a
trailing-optional decoder that infers presence from a non-empty cursor, and
opaque externally-supplied field codecs.  The struct shapes, the field
order and the flattening adapter are translated from the source.
-/

namespace BlockRlp

/-- Byte sequences are modelled as lists of naturals (each intended < 256). -/
abbrev Bytes := List Nat

/-- Modelled from the spec: the decode error taxonomy of section 7
(`InputTooShort`, `NonCanonicalLength`, `TrailingBytes`,
`MalformedOptionalField`, `Overflow`), plus `unexpectedString` for a list
decoder that meets a string prefix (section 4.2's list marker check). -/
inductive Err where
  | inputTooShort
  | nonCanonicalLength
  | trailingBytes
  | malformedOptionalField
  | overflow
  | unexpectedString
  deriving DecidableEq, Repr

deriving instance DecidableEq for Except

/-- First byte of a cursor, `0` when empty (used only for canonicality
checks on non-empty slices). -/
def firstByte : Bytes → Nat
  | [] => 0
  | b :: _ => b

/-- Minimal big-endian byte representation of a natural number
(`beBytes 0 = []`, no leading zero byte). -/
def beBytes (n : Nat) : Bytes := (Nat.digits 256 n).reverse

/-- Big-endian value of a byte sequence. -/
def beVal (bs : Bytes) : Nat := Nat.ofDigits 256 bs.reverse

/-- Modelled from the spec: size in bytes of the length part of an RLP
length prefix (single marker byte for payloads under 56 bytes, otherwise a
length-of-length byte followed by the big-endian length). -/
def lengthOfLength (len : Nat) : Nat := if len < 56 then 1 else 1 + (beBytes len).length

/-- Modelled from the spec: the RLP length prefix.  `offset` is `0x80` for
strings and `0xc0` for lists; short form is `offset + len` for payloads
under 56 bytes, long form is `offset + 55 + |be(len)|` followed by the
big-endian length bytes. -/
def encodeLength (offset len : Nat) : Bytes :=
  if len < 56 then [offset + len] else (offset + 55 + (beBytes len).length) :: beBytes len

/-- Modelled from the spec: parse an RLP *list* prefix from a cursor
(section 4.2).  Returns the declared payload length and the cursor
positioned at the start of the payload.  Rejects string prefixes, a
length-of-length over 8 (`Overflow`), non-canonical long forms (leading
zero or a long form for a payload under 56 bytes), and a declared length
exceeding the remaining input (`InputTooShort`). -/
def parseListHeader : Bytes → Except Err (Nat × Bytes)
  | [] => .error .inputTooShort
  | b :: rest =>
    if b < 0xc0 then .error .unexpectedString
    else if b < 0xf8 then
      if rest.length < b - 0xc0 then .error .inputTooShort
      else .ok (b - 0xc0, rest)
    else if 8 < b - 0xf7 then .error .overflow
    else if rest.length < b - 0xf7 then .error .inputTooShort
    else if firstByte (rest.take (b - 0xf7)) = 0 then .error .nonCanonicalLength
    else if beVal (rest.take (b - 0xf7)) < 56 then .error .nonCanonicalLength
    else if (rest.drop (b - 0xf7)).length < beVal (rest.take (b - 0xf7)) then
      .error .inputTooShort
    else .ok (beVal (rest.take (b - 0xf7)), rest.drop (b - 0xf7))

/-- Modelled from the spec: run an element decoder repeatedly over an exact
payload slice (section 4.2's "hand that sub-slice to the sequence of field
decoders").  The fuel argument only bounds the recursion; every element
consumes at least one byte, so a fuel of the slice length suffices. -/
def seqDec (d : Bytes → Except Err (α × Bytes)) : Nat → Bytes → Except Err (List α)
  | _, [] => .ok []
  | 0, _ :: _ => .error .inputTooShort
  | fuel + 1, b :: bs => do
    let (a, rest) ← d (b :: bs)
    let as ← seqDec d fuel rest
    .ok (a :: as)

/-- Modelled from the spec: the encodable/decodable contract satisfied by
the externally supplied `Header`, `Withdrawal`, `Requests` and transaction
types (section 6): an encoder, a cursor decoder that consumes exactly the
encoding and returns the remainder, and the facts that decoding inverts
encoding and that encodings are never empty. -/
structure Codec (α : Type) where
  enc : α → Bytes
  dec : Bytes → Except Err (α × Bytes)
  dec_enc : ∀ (a : α) (rest : Bytes), dec (enc a ++ rest) = .ok (a, rest)
  enc_ne_nil : ∀ a : α, enc a ≠ []

/-- Concatenation of the encodings of a sequence of values. -/
def encSeq (f : α → Bytes) : List α → Bytes
  | [] => []
  | a :: as => f a ++ encSeq f as

/-- Sum of per-element sizes of a sequence of values. -/
def lenSeq (f : α → Nat) : List α → Nat
  | [] => 0
  | a :: as => f a + lenSeq f as

/-- Modelled from the spec: RLP encoding of a homogeneous sequence
(`Vec<X>` in the source) as a list item: list prefix over the concatenated
element encodings. -/
def encVec (c : Codec α) (xs : List α) : Bytes :=
  encodeLength 0xc0 (encSeq c.enc xs).length ++ encSeq c.enc xs

/-- Modelled from the spec: the `length()` computation for a sequence
field: sum the element sizes into the payload length, then add the size of
the list prefix (section 4.2's "compute each field's encoded length"). -/
def encVecLength (c : Codec α) (xs : List α) : Nat :=
  lengthOfLength (lenSeq (fun a => (c.enc a).length) xs) +
    lenSeq (fun a => (c.enc a).length) xs

/-- Modelled from the spec: decoding of a homogeneous sequence field: parse
the list prefix, slice exactly the declared payload, and decode elements
until the slice is exhausted. -/
def decVec (c : Codec α) (input : Bytes) : Except Err (List α × Bytes) := do
  let (plen, rest) ← parseListHeader input
  let xs ← seqDec c.dec (rest.take plen).length (rest.take plen)
  .ok (xs, rest.drop plen)

/-- Modelled from the spec: the trailing-optional decoder step (section
4.3): an empty cursor resolves the field to absent and consumes nothing; on
a non-empty cursor a decode failure is the hard error
`MalformedOptionalField`, never treated as absence. -/
def decodeOptional (d : Bytes → Except Err (α × Bytes)) (cursor : Bytes) :
    Except Err (Option α × Bytes) :=
  match cursor with
  | [] => .ok (none, [])
  | b :: bs =>
    match d (b :: bs) with
    | .ok (a, rest) => .ok (some a, rest)
    | .error _ => .error .malformedOptionalField

/-- Translated from the source (`BlockBody<T>`, block.rs lines 26-37): the
block body with the declared field order `transactions, ommers,
withdrawals, requests`, the last two optional.  The external `Header`,
`Withdrawal` and `Requests` types are opaque encodable units (section 6)
and appear as the extra type parameters `H`, `W`, `R`. -/
structure BlockBody (T H W R : Type) where
  transactions : List T
  ommers : List H
  withdrawals : Option (List W)
  requests : Option R
  deriving DecidableEq, Repr

/-- Translated from the source (`Block<T>`, block.rs lines 15-21): a header
paired with a body. -/
structure Block (T H W R : Type) where
  header : H
  body : BlockBody T H W R
  deriving DecidableEq, Repr

/-- Translated from the source (`Helper<T>`, block.rs lines 44-52): the
owning decode view of the flattened block, fields in the declared order
`header, transactions, ommers, withdrawals, requests`. -/
structure Helper (T H W R : Type) where
  header : H
  transactions : List T
  ommers : List H
  withdrawals : Option (List W)
  requests : Option R
  deriving DecidableEq, Repr

/-- Translated from the source (`HelperRef<'a, T>`, block.rs lines 54-62):
the borrowing encode view of the flattened block; borrows are represented
by plain values. -/
structure HelperRef (T H W R : Type) where
  header : H
  transactions : List T
  ommers : List H
  withdrawals : Option (List W)
  requests : Option R
  deriving DecidableEq, Repr

/-- The codecs of the four externally supplied field types (section 6). -/
structure Codecs (T H W R : Type) where
  t : Codec T
  h : Codec H
  w : Codec W
  r : Codec R

/-- Translated from the source (`From<&'a Block<T>> for HelperRef`,
block.rs lines 64-76): destructure the block and its body into the flat
encode view. -/
def HelperRef.ofBlock (b : Block T H W R) : HelperRef T H W R :=
  { header := b.header
    transactions := b.body.transactions
    ommers := b.body.ommers
    withdrawals := b.body.withdrawals
    requests := b.body.requests }

/-- Encoding of an optional trailing field: its encoding when present, no
bytes when absent (spec section 3: "absence is encoded as no bytes emitted
for this field"). -/
def optBytes (f : α → Bytes) : Option α → Bytes
  | none => []
  | some a => f a

/-- Size contribution of an optional trailing field. -/
def optLength (f : α → Nat) : Option α → Nat
  | none => 0
  | some a => f a

/-- Modelled from the spec: the list payload of the derived
`#[rlp(trailing)]` encoder for `HelperRef` — the field encodings
concatenated in the declared order `header, transactions, ommers,
withdrawals?, requests?`. -/
def HelperRef.payloadBytes (cs : Codecs T H W R) (h : HelperRef T H W R) : Bytes :=
  cs.h.enc h.header ++
    (encVec cs.t h.transactions ++
      (encVec cs.h h.ommers ++
        (optBytes (encVec cs.w) h.withdrawals ++ optBytes cs.r.enc h.requests)))

/-- Modelled from the spec: the derived encoder for `HelperRef` — list
prefix over the payload, then the payload. -/
def HelperRef.encodeBytes (cs : Codecs T H W R) (h : HelperRef T H W R) : Bytes :=
  encodeLength 0xc0 (h.payloadBytes cs).length ++ h.payloadBytes cs

/-- Modelled from the spec: the payload length computation of the derived
`length()` for `HelperRef` — sum of the field lengths, optional fields
contributing only when present. -/
def HelperRef.payloadLength (cs : Codecs T H W R) (h : HelperRef T H W R) : Nat :=
  (cs.h.enc h.header).length +
    (encVecLength cs.t h.transactions +
      (encVecLength cs.h h.ommers +
        (optLength (encVecLength cs.w) h.withdrawals +
          optLength (fun r => (cs.r.enc r).length) h.requests)))

/-- Modelled from the spec: the derived `length()` for `HelperRef` —
payload length plus the size of the list prefix. -/
def HelperRef.rlpLength (cs : Codecs T H W R) (h : HelperRef T H W R) : Nat :=
  lengthOfLength (h.payloadLength cs) + h.payloadLength cs

/-- Translated from the source (`Encodable for Block`, block.rs lines
84-87): convert to the `HelperRef` view and encode it. -/
def Block.encodeBytes (cs : Codecs T H W R) (b : Block T H W R) : Bytes :=
  (HelperRef.ofBlock b).encodeBytes cs

/-- Translated from the source (`Encodable for Block::length`, block.rs
lines 79-82): convert to the `HelperRef` view and take its length. -/
def Block.rlpLength (cs : Codecs T H W R) (b : Block T H W R) : Nat :=
  (HelperRef.ofBlock b).rlpLength cs

/-- Modelled from the spec: the payload of the derived standalone
`BlockBody` encoder — field encodings in the declared order `transactions,
ommers, withdrawals?, requests?`. -/
def BlockBody.payloadBytes (cs : Codecs T H W R) (b : BlockBody T H W R) : Bytes :=
  encVec cs.t b.transactions ++
    (encVec cs.h b.ommers ++
      (optBytes (encVec cs.w) b.withdrawals ++ optBytes cs.r.enc b.requests))

/-- Modelled from the spec: the derived standalone `BlockBody` encoder. -/
def BlockBody.encodeBytes (cs : Codecs T H W R) (b : BlockBody T H W R) : Bytes :=
  encodeLength 0xc0 (b.payloadBytes cs).length ++ b.payloadBytes cs

/-- Modelled from the spec: the derived `#[rlp(trailing)]` decoder for the
`Helper` struct (sections 4.2 and 4.3): parse the list prefix, slice
exactly the declared payload, decode the required fields `header,
transactions, ommers` in order, then resolve the trailing optional fields
`withdrawals, requests` left-to-right with presence inferred from a
non-empty cursor; leftover payload bytes are `TrailingBytes`. -/
def Helper.decodeBytes (cs : Codecs T H W R) (input : Bytes) :
    Except Err (Helper T H W R × Bytes) := do
  let (plen, rest) ← parseListHeader input
  let (hd, c1) ← cs.h.dec (rest.take plen)
  let (txs, c2) ← decVec cs.t c1
  let (omm, c3) ← decVec cs.h c2
  let (wd, c4) ← decodeOptional (decVec cs.w) c3
  let (rq, c5) ← decodeOptional cs.r.dec c4
  if c5 = [] then
    .ok (⟨hd, txs, omm, wd, rq⟩, rest.drop plen)
  else
    .error .trailingBytes

/-- Translated from the source (`Decodable for Block`, block.rs lines
90-95): decode a `Helper` and repackage its fields into `Block` and
`BlockBody`. -/
def Block.decodeBytes (cs : Codecs T H W R) (input : Bytes) :
    Except Err (Block T H W R × Bytes) := do
  let (h, rest) ← Helper.decodeBytes cs input
  .ok (⟨h.header, ⟨h.transactions, h.ommers, h.withdrawals, h.requests⟩⟩, rest)

/-- Modelled from the spec: the derived standalone decoder for `BlockBody`
(sections 4.2 and 4.3), with the standalone field order `transactions,
ommers, withdrawals?, requests?`. -/
def BlockBody.decodeBytes (cs : Codecs T H W R) (input : Bytes) :
    Except Err (BlockBody T H W R × Bytes) := do
  let (plen, rest) ← parseListHeader input
  let (txs, c1) ← decVec cs.t (rest.take plen)
  let (omm, c2) ← decVec cs.h c1
  let (wd, c3) ← decodeOptional (decVec cs.w) c2
  let (rq, c4) ← decodeOptional cs.r.dec c3
  if c4 = [] then
    .ok (⟨txs, omm, wd, rq⟩, rest.drop plen)
  else
    .error .trailingBytes

/-- Modelled from the spec: the ordering invariant of section 4.3 — a body
may carry `requests` only if it also carries every optional field that
precedes it, i.e. `withdrawals`. -/
def BlockBody.wellFormed (b : BlockBody T H W R) : Bool :=
  b.requests.isNone || b.withdrawals.isSome

/-- The ordering invariant lifted to a block. -/
def Block.wellFormed (b : Block T H W R) : Bool :=
  b.body.wellFormed

/-- Size bound of an optional sequence field: its concatenated element
encodings stay below the platform length limit when present. -/
def optSizeOk (c : Codec α) : Option (List α) → Prop
  | none => True
  | some w => (encSeq c.enc w).length < 2 ^ 64

instance (c : Codec α) (o : Option (List α)) : Decidable (optSizeOk c o) :=
  match o with
  | none => isTrue trivial
  | some _ => Nat.decLt _ _

/-- Modelled from the spec: the platform size constraint on a block value —
every list payload it encodes (transactions, ommers, withdrawals, and the
outer flattened list) stays below `2 ^ 64` bytes, the bound representable
by the 8-byte long-form length (section 7's `Overflow`). -/
def Block.sizeOk (cs : Codecs T H W R) (b : Block T H W R) : Prop :=
  (encSeq cs.t.enc b.body.transactions).length < 2 ^ 64 ∧
    (encSeq cs.h.enc b.body.ommers).length < 2 ^ 64 ∧
      optSizeOk cs.w b.body.withdrawals ∧
        ((HelperRef.ofBlock b).payloadBytes cs).length < 2 ^ 64

/-- Modelled from the spec: the platform size constraint on a standalone
body value. -/
def BlockBody.sizeOk (cs : Codecs T H W R) (b : BlockBody T H W R) : Prop :=
  (encSeq cs.t.enc b.transactions).length < 2 ^ 64 ∧
    (encSeq cs.h.enc b.ommers).length < 2 ^ 64 ∧
      optSizeOk cs.w b.withdrawals ∧
        (b.payloadBytes cs).length < 2 ^ 64

instance (cs : Codecs T H W R) (b : Block T H W R) :
    Decidable (Block.sizeOk cs b) := by
  unfold Block.sizeOk
  infer_instance

instance (cs : Codecs T H W R) (b : BlockBody T H W R) :
    Decidable (BlockBody.sizeOk cs b) := by
  unfold BlockBody.sizeOk
  infer_instance

/-- Modelled from the spec: the guarded encode boundary of sections 4.3 and
7 — encoding an "only-requests, no-withdrawals" body is caller misuse of
the programming-error class, so the boundary refuses (`none`) instead of
producing bytes. -/
def BlockBody.checkedEncode (cs : Codecs T H W R) (b : BlockBody T H W R) :
    Option Bytes :=
  if b.wellFormed then some (b.encodeBytes cs) else none

/-- Modelled from the spec: the guarded encode boundary for a full block. -/
def Block.checkedEncode (cs : Codecs T H W R) (b : Block T H W R) :
    Option Bytes :=
  if b.wellFormed then some (b.encodeBytes cs) else none

/-- Modelled from the spec: an older encoder for the flattened block that
emits the required fields and possibly `withdrawals` but is unaware of the
trailing `requests` field (section 8's backward-compatibility scenario). -/
def encodeOldBlock (cs : Codecs T H W R) (hd : H) (txs : List T) (omm : List H)
    (wd : Option (List W)) : Bytes :=
  encodeLength 0xc0
      (cs.h.enc hd ++
        (encVec cs.t txs ++ (encVec cs.h omm ++ optBytes (encVec cs.w) wd))).length ++
    (cs.h.enc hd ++
      (encVec cs.t txs ++ (encVec cs.h omm ++ optBytes (encVec cs.w) wd)))

/-- Modelled from the spec: an older encoder for a standalone body that
never emits the trailing `requests` field. -/
def encodeOldBody (cs : Codecs T H W R) (txs : List T) (omm : List H)
    (wd : Option (List W)) : Bytes :=
  encodeLength 0xc0
      (encVec cs.t txs ++ (encVec cs.h omm ++ optBytes (encVec cs.w) wd)).length ++
    (encVec cs.t txs ++ (encVec cs.h omm ++ optBytes (encVec cs.w) wd))

/-- Modelled from the spec: the encoding of the list containing only the
required body fields, transactions then ommers (section 8's
"required-fields-only list"). -/
def encodeRequiredOnly (cs : Codecs T H W R) (txs : List T) (omm : List H) : Bytes :=
  encodeLength 0xc0 (encVec cs.t txs ++ encVec cs.h omm).length ++
    (encVec cs.t txs ++ encVec cs.h omm)

/-- A concrete single-byte codec used to instantiate the opaque field
types in witnesses: a value below `0x80` is encoded as itself with no
length prefix (the single-byte rule of section 4.1). -/
def byteCodec : Codec (Fin 128) where
  enc a := [a.val]
  dec input :=
    match input with
    | [] => .error .inputTooShort
    | b :: rest =>
      if h : b < 128 then .ok (⟨b, h⟩, rest) else .error .overflow
  dec_enc := by
    intro a rest
    simp [a.isLt]
  enc_ne_nil := by
    intro a
    simp

/-- Concrete codecs instantiating all four opaque field types with the
single-byte codec. -/
def sampleCodecs : Codecs (Fin 128) (Fin 128) (Fin 128) (Fin 128) :=
  ⟨byteCodec, byteCodec, byteCodec, byteCodec⟩

/-- A concrete block used by the witnesses: two transactions, one ommer,
one withdrawal, a request. -/
def sampleBlock : Block (Fin 128) (Fin 128) (Fin 128) (Fin 128) :=
  { header := 9
    body :=
      { transactions := [1, 2]
        ommers := [7]
        withdrawals := some [3]
        requests := some 4 } }

/-- A concrete body with both optional fields present. -/
def sampleBody : BlockBody (Fin 128) (Fin 128) (Fin 128) (Fin 128) :=
  { transactions := [1, 2]
    ommers := []
    withdrawals := some [3]
    requests := some 4 }

/-- A concrete block violating the ordering invariant: `withdrawals`
absent while `requests` is present. -/
def misorderedBlock : Block (Fin 128) (Fin 128) (Fin 128) (Fin 128) :=
  { header := 9
    body :=
      { transactions := []
        ommers := []
        withdrawals := none
        requests := some 4 } }

/-! Basic facts about the length-prefix machinery. -/

theorem exbind_ok (x : α) (f : α → Except Err β) : (Except.ok x >>= f) = f x := rfl

theorem exbind_err (e : Err) (f : α → Except Err β) :
    ((Except.error e : Except Err α) >>= f) = .error e := rfl

theorem encodeLength_length (offset len : Nat) :
    (encodeLength offset len).length = lengthOfLength len := by
  unfold encodeLength lengthOfLength
  split <;> simp [Nat.add_comm]

theorem encodeLength_ne_nil (offset len : Nat) : encodeLength offset len ≠ [] := by
  unfold encodeLength
  split <;> simp

theorem encVec_ne_nil (c : Codec α) (xs : List α) : encVec c xs ≠ [] := by
  unfold encVec
  intro h
  exact encodeLength_ne_nil _ _ (List.append_eq_nil.mp h).1

theorem beVal_beBytes (n : Nat) : beVal (beBytes n) = n := by
  simp [beVal, beBytes, Nat.ofDigits_digits]

theorem beBytes_ne_nil {n : Nat} (h : n ≠ 0) : beBytes n ≠ [] := by
  simp [beBytes, Nat.digits_ne_nil_iff_ne_zero, h]

theorem beBytes_length_pos {n : Nat} (h : n ≠ 0) : 0 < (beBytes n).length :=
  List.length_pos.mpr (beBytes_ne_nil h)

theorem firstByte_eq_head? (l : Bytes) : firstByte l = l.head?.getD 0 := by
  cases l <;> rfl

theorem firstByte_beBytes {n : Nat} (h : n ≠ 0) : firstByte (beBytes n) ≠ 0 := by
  have hne : Nat.digits 256 n ≠ [] := Nat.digits_ne_nil_iff_ne_zero.mpr h
  have hlast := Nat.getLast_digit_ne_zero 256 h
  rw [beBytes, firstByte_eq_head?, List.head?_reverse,
    List.getLast?_eq_getLast_of_ne_nil hne]
  simpa using hlast

theorem beBytes_length_le {n : Nat} (h : n < 2 ^ 64) : (beBytes n).length ≤ 8 := by
  by_cases h0 : n = 0
  · subst h0
    simp [beBytes]
  · by_contra hgt
    have hlen : (beBytes n).length = (Nat.digits 256 n).length := by
      simp [beBytes]
    have h9 : 9 ≤ (Nat.digits 256 n).length := by omega
    have h1 : (256 : ℕ) ^ (Nat.digits 256 n).length ≤ 256 * n :=
      Nat.base_pow_length_digits_le 256 n (by norm_num) h0
    have h2 : (256 : ℕ) ^ 9 ≤ 256 ^ (Nat.digits 256 n).length :=
      Nat.pow_le_pow_right (by norm_num) h9
    have h3 : (256 : ℕ) ^ 9 ≤ 256 * n := le_trans h2 h1
    norm_num at h3
    omega

theorem lenSeq_eq_length_encSeq (f : α → Bytes) (xs : List α) :
    lenSeq (fun a => (f a).length) xs = (encSeq f xs).length := by
  induction xs with
  | nil => rfl
  | cons a as ih => simp [lenSeq, encSeq, ih]

theorem length_encVec (c : Codec α) (xs : List α) :
    (encVec c xs).length =
      lengthOfLength (encSeq c.enc xs).length + (encSeq c.enc xs).length := by
  unfold encVec
  simp [List.length_append, encodeLength_length]

theorem encVecLength_eq (c : Codec α) (xs : List α) :
    encVecLength c xs = (encVec c xs).length := by
  unfold encVecLength encVec
  rw [lenSeq_eq_length_encSeq]
  simp [encodeLength_length]

/-! Correctness of the sequence decoder on encoder output. -/

theorem seqDec_encSeq (c : Codec α) (xs : List α) :
    ∀ n, (encSeq c.enc xs).length ≤ n →
      seqDec c.dec n (encSeq c.enc xs) = .ok xs := by
  induction xs with
  | nil =>
    intro n _
    cases n <;> rfl
  | cons a as ih =>
    intro n hn
    obtain ⟨b, bs, hb⟩ := List.exists_cons_of_ne_nil (c.enc_ne_nil a)
    have hlen : (c.enc a).length + (encSeq c.enc as).length ≤ n := by
      simpa [encSeq] using hn
    match n with
    | 0 =>
      rw [hb] at hlen
      simp at hlen
    | Nat.succ m =>
      show seqDec c.dec (m + 1) (c.enc a ++ encSeq c.enc as) = _
      rw [hb, List.cons_append]
      show (do
        let (x, rest) ← c.dec (b :: (bs ++ encSeq c.enc as))
        let as' ← seqDec c.dec m rest
        (.ok (x :: as') : Except Err (List α))) = _
      rw [← List.cons_append, ← hb, c.dec_enc]
      have hm : (encSeq c.enc as).length ≤ m := by
        rw [hb] at hlen
        simp at hlen
        omega
      simp [exbind_ok, ih m hm]

/-! Correctness of the list-prefix parser on encoder output. -/

theorem parseListHeader_enc (pl rest : Bytes) (hsz : pl.length < 2 ^ 64) :
    parseListHeader (encodeLength 0xc0 pl.length ++ (pl ++ rest)) =
      .ok (pl.length, pl ++ rest) := by
  by_cases hshort : pl.length < 56
  · rw [encodeLength, if_pos hshort]
    show parseListHeader ((0xc0 + pl.length) :: (pl ++ rest)) = _
    simp only [parseListHeader]
    rw [if_neg (by omega), if_pos (by omega), Nat.add_sub_cancel_left,
      if_neg (by simp only [List.length_append]; omega)]
  · have h0 : pl.length ≠ 0 := by omega
    have hk1 : 0 < (beBytes pl.length).length := beBytes_length_pos h0
    have hk8 : (beBytes pl.length).length ≤ 8 := beBytes_length_le hsz
    rw [encodeLength, if_neg hshort]
    show parseListHeader
      ((0xc0 + 55 + (beBytes pl.length).length) :: (beBytes pl.length ++ (pl ++ rest))) = _
    simp only [parseListHeader]
    rw [if_neg (by omega), if_neg (by omega)]
    have hsub : 0xc0 + 55 + (beBytes pl.length).length - 0xf7 =
        (beBytes pl.length).length := by omega
    rw [hsub, if_neg (by omega),
      if_neg (by simp only [List.length_append]; omega), List.take_left,
      List.drop_left, if_neg (firstByte_beBytes h0), beVal_beBytes,
      if_neg (by omega), if_neg (by simp only [List.length_append]; omega)]

/-! Correctness of the sequence-field decoder on encoder output. -/

theorem decVec_encVec (c : Codec α) (xs : List α) (rest : Bytes)
    (hsz : (encSeq c.enc xs).length < 2 ^ 64) :
    decVec c (encVec c xs ++ rest) = .ok (xs, rest) := by
  unfold decVec encVec
  rw [List.append_assoc, parseListHeader_enc _ _ hsz, exbind_ok]
  simp only [List.take_left, List.drop_left]
  rw [seqDec_encSeq c xs _ (le_refl _), exbind_ok]

/-! The trailing-optional decoder on the three cursor shapes it meets. -/

theorem decodeOptional_nil (d : Bytes → Except Err (α × Bytes)) :
    decodeOptional d [] = .ok (none, []) := rfl

theorem decodeOptional_ok {d : Bytes → Except Err (α × Bytes)} {cursor : Bytes}
    (hne : cursor ≠ []) {a : α} {rest : Bytes} (h : d cursor = .ok (a, rest)) :
    decodeOptional d cursor = .ok (some a, rest) := by
  obtain ⟨b, bs, rfl⟩ := List.exists_cons_of_ne_nil hne
  simp only [decodeOptional]
  rw [h]

theorem decodeOptional_err {d : Bytes → Except Err (α × Bytes)} {cursor : Bytes}
    (hne : cursor ≠ []) {e : Err} (h : d cursor = .error e) :
    decodeOptional d cursor = .error .malformedOptionalField := by
  obtain ⟨b, bs, rfl⟩ := List.exists_cons_of_ne_nil hne
  simp only [decodeOptional]
  rw [h]

/-! Decoding the flattened `Helper` view from the bytes the `HelperRef`
view encodes. -/

theorem helper_decode_of_encode (cs : Codecs T H W R) (b : Block T H W R)
    (hwf : b.wellFormed = true) (hsz : Block.sizeOk cs b) (extra : Bytes) :
    Helper.decodeBytes cs (Block.encodeBytes cs b ++ extra) =
      .ok (⟨b.header, b.body.transactions, b.body.ommers,
            b.body.withdrawals, b.body.requests⟩, extra) := by
  obtain ⟨h1, h2, h3, h4⟩ := hsz
  unfold Block.encodeBytes HelperRef.encodeBytes at *
  unfold Helper.decodeBytes
  rw [List.append_assoc, parseListHeader_enc _ _ h4, exbind_ok]
  simp only [List.take_left, List.drop_left]
  unfold HelperRef.payloadBytes HelperRef.ofBlock
  rw [cs.h.dec_enc, exbind_ok]
  rw [decVec_encVec cs.t _ _ h1, exbind_ok]
  rw [decVec_encVec cs.h _ _ h2, exbind_ok]
  rcases hw : b.body.withdrawals with _ | w <;>
    rcases hr : b.body.requests with _ | r
  · simp only [optBytes, List.nil_append]
    rw [decodeOptional_nil, exbind_ok, decodeOptional_nil, exbind_ok, if_pos rfl]
  · exfalso
    rw [Block.wellFormed, BlockBody.wellFormed, hw, hr] at hwf
    simp at hwf
  · rw [hw] at h3
    have h3' : (encSeq cs.w.enc w).length < 2 ^ 64 := by
      simpa [optSizeOk] using h3
    simp only [optBytes, List.append_nil]
    have hdec : decVec cs.w (encVec cs.w w) = .ok (w, []) := by
      simpa using decVec_encVec cs.w w [] h3'
    rw [decodeOptional_ok (encVec_ne_nil cs.w w) hdec, exbind_ok]
    rw [decodeOptional_nil, exbind_ok, if_pos rfl]
  · rw [hw] at h3
    have h3' : (encSeq cs.w.enc w).length < 2 ^ 64 := by
      simpa [optSizeOk] using h3
    simp only [optBytes]
    rw [decodeOptional_ok
      (fun hc => encVec_ne_nil cs.w w (List.append_eq_nil.mp hc).1)
      (decVec_encVec cs.w w (cs.r.enc r) h3'), exbind_ok]
    have hr' : cs.r.dec (cs.r.enc r) = .ok (r, []) := by
      have := cs.r.dec_enc r []
      simpa using this
    rw [decodeOptional_ok (cs.r.enc_ne_nil r) hr', exbind_ok, if_pos rfl]

/-- Decoding a standalone body from the bytes its standalone encoder
produced, with arbitrary trailing input. -/
theorem body_decode_of_encode (cs : Codecs T H W R)
    (b : BlockBody T H W R) (hwf : b.wellFormed = true)
    (hsz : BlockBody.sizeOk cs b) (extra : Bytes) :
    BlockBody.decodeBytes cs (BlockBody.encodeBytes cs b ++ extra) =
      .ok (b, extra) := by
  obtain ⟨h1, h2, h3, h4⟩ := hsz
  unfold BlockBody.encodeBytes at *
  unfold BlockBody.decodeBytes
  rw [List.append_assoc, parseListHeader_enc _ _ h4, exbind_ok]
  simp only [List.take_left, List.drop_left]
  unfold BlockBody.payloadBytes
  rw [decVec_encVec cs.t _ _ h1, exbind_ok]
  rw [decVec_encVec cs.h _ _ h2, exbind_ok]
  rcases hw : b.withdrawals with _ | w <;> rcases hr : b.requests with _ | r
  · simp only [optBytes, List.nil_append]
    rw [decodeOptional_nil, exbind_ok, decodeOptional_nil, exbind_ok, if_pos rfl,
      ← hw, ← hr]
  · exfalso
    rw [BlockBody.wellFormed, hw, hr] at hwf
    simp at hwf
  · rw [hw] at h3
    have h3' : (encSeq cs.w.enc w).length < 2 ^ 64 := by
      simpa [optSizeOk] using h3
    simp only [optBytes, List.append_nil]
    have hdec : decVec cs.w (encVec cs.w w) = .ok (w, []) := by
      simpa using decVec_encVec cs.w w [] h3'
    rw [decodeOptional_ok (encVec_ne_nil cs.w w) hdec, exbind_ok]
    rw [decodeOptional_nil, exbind_ok, if_pos rfl, ← hw, ← hr]
  · rw [hw] at h3
    have h3' : (encSeq cs.w.enc w).length < 2 ^ 64 := by
      simpa [optSizeOk] using h3
    simp only [optBytes]
    rw [decodeOptional_ok
      (fun hc => encVec_ne_nil cs.w w (List.append_eq_nil.mp hc).1)
      (decVec_encVec cs.w w (cs.r.enc r) h3'), exbind_ok]
    have hr' : cs.r.dec (cs.r.enc r) = .ok (r, []) := by
      have := cs.r.dec_enc r []
      simpa using this
    rw [decodeOptional_ok (cs.r.enc_ne_nil r) hr', exbind_ok, if_pos rfl,
      ← hw, ← hr]

/-! Claim theorems. -/

/-- C1: for every valid `Block<T>` value `b` (with encodable/decodable
field types), decoding the bytes produced by encoding `b` yields exactly
`b` (and consumes the whole input).  "Valid" is the ordering invariant of
section 4.3 together with the platform size bounds of section 7. -/
theorem block_decode_encode_roundtrip (cs : Codecs T H W R) (b : Block T H W R)
    (hwf : b.wellFormed = true) (hsz : Block.sizeOk cs b) :
    Block.decodeBytes cs (Block.encodeBytes cs b) = .ok (b, []) := by
  unfold Block.decodeBytes
  have h := helper_decode_of_encode cs b hwf hsz []
  rw [List.append_nil] at h
  rw [h, exbind_ok]

theorem block_decode_encode_roundtrip_witness :
    sampleBlock.wellFormed = true ∧ Block.sizeOk sampleCodecs sampleBlock ∧
      Block.decodeBytes sampleCodecs (Block.encodeBytes sampleCodecs sampleBlock) =
        .ok (sampleBlock, []) :=
  ⟨by decide, by decide,
    block_decode_encode_roundtrip sampleCodecs sampleBlock (by decide) (by decide)⟩

/-- C6: for every valid standalone `BlockBody<T>` value, decoding the bytes
its standalone encoder produced yields exactly the value back, and the
standalone encoding is the single list over the field encodings in the wire
order `transactions, ommers, withdrawals?, requests?`. -/
theorem body_decode_encode_roundtrip (cs : Codecs T H W R) (b : BlockBody T H W R)
    (hwf : b.wellFormed = true) (hsz : BlockBody.sizeOk cs b) :
    BlockBody.decodeBytes cs (BlockBody.encodeBytes cs b) = .ok (b, []) ∧
      BlockBody.encodeBytes cs b =
        encodeLength 0xc0
            (encVec cs.t b.transactions ++
              (encVec cs.h b.ommers ++
                (optBytes (encVec cs.w) b.withdrawals ++
                  optBytes cs.r.enc b.requests))).length ++
          (encVec cs.t b.transactions ++
            (encVec cs.h b.ommers ++
              (optBytes (encVec cs.w) b.withdrawals ++
                optBytes cs.r.enc b.requests))) := by
  constructor
  · have h := body_decode_of_encode cs b hwf hsz []
    rwa [List.append_nil] at h
  · rfl

theorem body_decode_encode_roundtrip_witness :
    sampleBody.wellFormed = true ∧ BlockBody.sizeOk sampleCodecs sampleBody ∧
      BlockBody.decodeBytes sampleCodecs
          (BlockBody.encodeBytes sampleCodecs sampleBody) =
        .ok (sampleBody, []) :=
  ⟨by decide, by decide,
    (body_decode_encode_roundtrip sampleCodecs sampleBody (by decide) (by decide)).1⟩

/-- C3: the encoding of a `Block<T>` is a single flat list: one outer list
prefix over the concatenation of the field encodings in the exact order
`header, transactions, ommers, withdrawals?, requests?`.  The body's fields
are siblings of the header — the body contributes its bare standalone
payload, with no nested list prefix wrapping the body itself. -/
theorem block_encode_flat_field_order (cs : Codecs T H W R) (b : Block T H W R) :
    Block.encodeBytes cs b =
      encodeLength 0xc0 (cs.h.enc b.header ++ b.body.payloadBytes cs).length ++
        (cs.h.enc b.header ++ b.body.payloadBytes cs) ∧
      cs.h.enc b.header ++ b.body.payloadBytes cs =
        cs.h.enc b.header ++
          (encVec cs.t b.body.transactions ++
            (encVec cs.h b.body.ommers ++
              (optBytes (encVec cs.w) b.body.withdrawals ++
                optBytes cs.r.enc b.body.requests))) :=
  ⟨rfl, rfl⟩

/-- C5: a body with both optional fields absent encodes to exactly the
bytes of the required-fields-only list (transactions then ommers), and
decoding that output yields a body with both optional fields absent. -/
theorem body_required_only_encoding (cs : Codecs T H W R) (txs : List T)
    (omm : List H) (h1 : (encSeq cs.t.enc txs).length < 2 ^ 64)
    (h2 : (encSeq cs.h.enc omm).length < 2 ^ 64)
    (h4 : (encVec cs.t txs ++ encVec cs.h omm).length < 2 ^ 64) :
    BlockBody.encodeBytes cs ⟨txs, omm, none, none⟩ =
        encodeRequiredOnly cs txs omm ∧
      BlockBody.decodeBytes cs (BlockBody.encodeBytes cs ⟨txs, omm, none, none⟩) =
        .ok (⟨txs, omm, none, none⟩, []) := by
  have h4' : (BlockBody.payloadBytes cs ⟨txs, omm, none, none⟩).length < 2 ^ 64 := by
    unfold BlockBody.payloadBytes
    simpa [optBytes] using h4
  constructor
  · unfold BlockBody.encodeBytes encodeRequiredOnly BlockBody.payloadBytes
    simp [optBytes]
  · have h := body_decode_of_encode cs ⟨txs, omm, none, none⟩ rfl
      ⟨h1, h2, trivial, h4'⟩ []
    rwa [List.append_nil] at h

theorem body_required_only_encoding_witness :
    (encSeq sampleCodecs.t.enc ([1, 2] : List (Fin 128))).length < 2 ^ 64 ∧
      (encSeq sampleCodecs.h.enc ([7] : List (Fin 128))).length < 2 ^ 64 ∧
      (encVec sampleCodecs.t ([1, 2] : List (Fin 128)) ++
          encVec sampleCodecs.h ([7] : List (Fin 128))).length < 2 ^ 64 ∧
      BlockBody.encodeBytes sampleCodecs ⟨[1, 2], [7], none, none⟩ =
        encodeRequiredOnly sampleCodecs ([1, 2] : List (Fin 128)) [7] :=
  ⟨by decide, by decide, by decide,
    (body_required_only_encoding sampleCodecs [1, 2] [7]
      (by decide) (by decide) (by decide)).1⟩

/-- C10: the value returned by the `length()` implementation of `Block`
equals the number of bytes its `encode()` implementation writes. -/
theorem block_length_eq_encode_length (cs : Codecs T H W R) (b : Block T H W R) :
    Block.rlpLength cs b = (Block.encodeBytes cs b).length := by
  unfold Block.rlpLength Block.encodeBytes HelperRef.rlpLength HelperRef.encodeBytes
  have hpl : HelperRef.payloadLength cs (HelperRef.ofBlock b) =
      (HelperRef.payloadBytes cs (HelperRef.ofBlock b)).length := by
    unfold HelperRef.payloadLength HelperRef.payloadBytes
    rcases (HelperRef.ofBlock b).withdrawals with _ | w <;>
      rcases (HelperRef.ofBlock b).requests with _ | r <;>
        simp [optLength, optBytes, encVecLength, lenSeq_eq_length_encSeq,
          length_encVec, List.length_append]
  rw [hpl]
  simp [List.length_append, encodeLength_length]

/-- The truncated form of a valid list encoding fails the remaining-input
check of the prefix parser. -/
theorem parseListHeader_truncated (pl : Bytes) (hne : pl ≠ [])
    (hsz : pl.length < 2 ^ 64) :
    parseListHeader ((encodeLength 0xc0 pl.length ++ pl).dropLast) =
      .error .inputTooShort := by
  have hlen1 : 1 ≤ pl.length := List.length_pos.mpr hne
  rw [List.dropLast_append_of_ne_nil _ hne]
  by_cases hshort : pl.length < 56
  · rw [encodeLength, if_pos hshort]
    show parseListHeader ((0xc0 + pl.length) :: pl.dropLast) = _
    simp only [parseListHeader]
    rw [if_neg (by omega), if_pos (by omega), Nat.add_sub_cancel_left,
      if_pos (by simp only [List.length_dropLast]; omega)]
  · have h0 : pl.length ≠ 0 := by omega
    have hk1 : 0 < (beBytes pl.length).length := beBytes_length_pos h0
    have hk8 : (beBytes pl.length).length ≤ 8 := beBytes_length_le hsz
    rw [encodeLength, if_neg hshort]
    show parseListHeader
      ((0xc0 + 55 + (beBytes pl.length).length) :: (beBytes pl.length ++ pl.dropLast)) = _
    simp only [parseListHeader]
    rw [if_neg (by omega), if_neg (by omega)]
    have hsub : 0xc0 + 55 + (beBytes pl.length).length - 0xf7 =
        (beBytes pl.length).length := by omega
    rw [hsub, if_neg (by omega),
      if_neg (by simp only [List.length_append, List.length_dropLast]; omega),
      List.take_left, List.drop_left, if_neg (firstByte_beBytes h0), beVal_beBytes,
      if_neg (by omega), if_pos (by simp only [List.length_dropLast]; omega)]

/-- C2: a block (or body) whose `withdrawals` field is absent while its
`requests` field is present is rejected at the encode boundary: the
guarded encoder refuses to produce bytes for it. -/
theorem checked_encode_rejects_requests_without_withdrawals
    (cs : Codecs T H W R) (b : Block T H W R)
    (hw : b.body.withdrawals = none) (hr : b.body.requests.isSome = true) :
    Block.checkedEncode cs b = none ∧ BlockBody.checkedEncode cs b.body = none := by
  have hwf : b.body.wellFormed = false := by
    rw [BlockBody.wellFormed, hw]
    rcases hb : b.body.requests with _ | r
    · rw [hb] at hr
      simp at hr
    · simp
  refine ⟨?_, ?_⟩
  · rw [Block.checkedEncode, Block.wellFormed, hwf]
    rfl
  · rw [BlockBody.checkedEncode, hwf]
    rfl

theorem checked_encode_rejects_requests_without_withdrawals_witness :
    misorderedBlock.body.withdrawals = none ∧
      misorderedBlock.body.requests.isSome = true ∧
      Block.checkedEncode sampleCodecs misorderedBlock = none :=
  ⟨rfl, rfl,
    (checked_encode_rejects_requests_without_withdrawals sampleCodecs
      misorderedBlock rfl rfl).1⟩

/-- C4: encodings produced by an older encoder that never emits the
trailing `requests` field (for a flattened block or a standalone body)
decode successfully, yielding `requests = absent`; and on an empty cursor
every remaining optional field resolves to absent with no bytes consumed. -/
theorem old_encoder_decode_requests_absent (cs : Codecs T H W R) (hd : H)
    (txs : List T) (omm : List H) (wd : Option (List W))
    (h1 : (encSeq cs.t.enc txs).length < 2 ^ 64)
    (h2 : (encSeq cs.h.enc omm).length < 2 ^ 64)
    (h3 : optSizeOk cs.w wd)
    (h4 : (cs.h.enc hd ++
        (encVec cs.t txs ++ (encVec cs.h omm ++ optBytes (encVec cs.w) wd))).length <
      2 ^ 64)
    (h5 : (encVec cs.t txs ++
        (encVec cs.h omm ++ optBytes (encVec cs.w) wd)).length < 2 ^ 64) :
    Block.decodeBytes cs (encodeOldBlock cs hd txs omm wd) =
        .ok (⟨hd, ⟨txs, omm, wd, none⟩⟩, []) ∧
      BlockBody.decodeBytes cs (encodeOldBody cs txs omm wd) =
        .ok (⟨txs, omm, wd, none⟩, []) ∧
      ∀ (α : Type) (d : Bytes → Except Err (α × Bytes)),
        decodeOptional d [] = .ok (none, []) := by
  refine ⟨?_, ?_, fun _ _ => rfl⟩
  · have hkey : encodeOldBlock cs hd txs omm wd =
        Block.encodeBytes cs ⟨hd, ⟨txs, omm, wd, none⟩⟩ := by
      unfold encodeOldBlock Block.encodeBytes HelperRef.encodeBytes
        HelperRef.payloadBytes HelperRef.ofBlock
      simp [optBytes]
    have h4' : ((HelperRef.ofBlock
        (⟨hd, ⟨txs, omm, wd, none⟩⟩ : Block T H W R)).payloadBytes cs).length <
        2 ^ 64 := by
      unfold HelperRef.payloadBytes HelperRef.ofBlock
      simpa [optBytes] using h4
    have hdec := helper_decode_of_encode cs ⟨hd, ⟨txs, omm, wd, none⟩⟩
      (by rw [Block.wellFormed, BlockBody.wellFormed]; rfl)
      ⟨h1, h2, h3, h4'⟩ []
    rw [List.append_nil] at hdec
    unfold Block.decodeBytes
    rw [hkey, hdec, exbind_ok]
  · have hkey : encodeOldBody cs txs omm wd =
        BlockBody.encodeBytes cs ⟨txs, omm, wd, none⟩ := by
      unfold encodeOldBody BlockBody.encodeBytes BlockBody.payloadBytes
      simp [optBytes]
    have h5' : (BlockBody.payloadBytes cs
        (⟨txs, omm, wd, none⟩ : BlockBody T H W R)).length < 2 ^ 64 := by
      unfold BlockBody.payloadBytes
      simpa [optBytes] using h5
    have hdec := body_decode_of_encode cs ⟨txs, omm, wd, none⟩
      (by rw [BlockBody.wellFormed]; rfl) ⟨h1, h2, h3, h5'⟩ []
    rw [List.append_nil] at hdec
    rw [hkey, hdec]

theorem old_encoder_decode_requests_absent_witness :
    (encSeq sampleCodecs.t.enc ([1, 2] : List (Fin 128))).length < 2 ^ 64 ∧
      (encSeq sampleCodecs.h.enc ([7] : List (Fin 128))).length < 2 ^ 64 ∧
      optSizeOk sampleCodecs.w (some [3]) ∧
      Block.decodeBytes sampleCodecs
          (encodeOldBlock sampleCodecs (9 : Fin 128) [1, 2] [7] (some [3])) =
        .ok (⟨9, ⟨[1, 2], [7], some [3], none⟩⟩, []) :=
  ⟨by decide, by decide, by decide,
    (old_encoder_decode_requests_absent sampleCodecs 9 [1, 2] [7] (some [3])
      (by decide) (by decide) (by decide) (by decide) (by decide)).1⟩

/-- C7: when unconsumed bytes remain in the list payload but the next
declared optional field fails to decode from them, the whole decode is the
hard error `MalformedOptionalField`: the failure is never treated as
absence, and no `Helper`, hence no `Block`/`BlockBody`, value is produced.
The failing field may be either declared optional position: `withdrawals`
(the first disjunct: a non-empty cursor after the required fields on which
`Vec<Withdrawal>` decoding fails) or `requests` (the second disjunct: the
withdrawals step resolved and left a non-empty cursor on which `Requests`
decoding fails). -/
theorem optional_field_failure_hard_error (cs : Codecs T H W R) (input : Bytes)
    (plen : Nat) (rest : Bytes) (hd : H) (c1 : Bytes) (txs : List T) (c2 : Bytes)
    (omm : List H) (c3 : Bytes) (e : Err)
    (hparse : parseListHeader input = .ok (plen, rest))
    (hhd : cs.h.dec (rest.take plen) = .ok (hd, c1))
    (htx : decVec cs.t c1 = .ok (txs, c2))
    (homm : decVec cs.h c2 = .ok (omm, c3))
    (hfail : (c3 ≠ [] ∧ decVec cs.w c3 = .error e) ∨
      (∃ (wd : Option (List W)) (c4 : Bytes),
        decodeOptional (decVec cs.w) c3 = .ok (wd, c4) ∧ c4 ≠ [] ∧
          cs.r.dec c4 = .error e)) :
    Helper.decodeBytes cs input = .error .malformedOptionalField ∧
      Block.decodeBytes cs input = .error .malformedOptionalField := by
  have h : Helper.decodeBytes cs input = .error .malformedOptionalField := by
    unfold Helper.decodeBytes
    rw [hparse]
    simp only [exbind_ok]
    rw [hhd]
    simp only [exbind_ok]
    rw [htx]
    simp only [exbind_ok]
    rw [homm]
    simp only [exbind_ok]
    rcases hfail with ⟨hne, hf⟩ | ⟨wd, c4, hok, hne4, hf⟩
    · rw [decodeOptional_err hne hf]
      simp only [exbind_err]
    · rw [hok]
      simp only [exbind_ok]
      rw [decodeOptional_err hne4 hf]
      simp only [exbind_err]
  refine ⟨h, ?_⟩
  unfold Block.decodeBytes
  rw [h, exbind_err]

theorem optional_field_failure_hard_error_witness :
    parseListHeader [0xc6, 5, 0xc0, 0xc0, 0xc1, 3, 0xf9] =
        .ok (6, [5, 0xc0, 0xc0, 0xc1, 3, 0xf9]) ∧
      sampleCodecs.h.dec (([5, 0xc0, 0xc0, 0xc1, 3, 0xf9] : Bytes).take 6) =
        .ok ((5 : Fin 128), [0xc0, 0xc0, 0xc1, 3, 0xf9]) ∧
      decVec sampleCodecs.t [0xc0, 0xc0, 0xc1, 3, 0xf9] =
        .ok ([], [0xc0, 0xc1, 3, 0xf9]) ∧
      decVec sampleCodecs.h [0xc0, 0xc1, 3, 0xf9] = .ok ([], [0xc1, 3, 0xf9]) ∧
      decodeOptional (decVec sampleCodecs.w) [0xc1, 3, 0xf9] =
        .ok (some [3], [0xf9]) ∧
      ([0xf9] : Bytes) ≠ [] ∧
      sampleCodecs.r.dec [0xf9] = .error .overflow ∧
      Block.decodeBytes sampleCodecs [0xc6, 5, 0xc0, 0xc0, 0xc1, 3, 0xf9] =
        .error .malformedOptionalField :=
  ⟨by decide, by decide, by decide, by decide, by decide, by decide, by decide,
    (optional_field_failure_hard_error sampleCodecs
      [0xc6, 5, 0xc0, 0xc0, 0xc1, 3, 0xf9] 6 [5, 0xc0, 0xc0, 0xc1, 3, 0xf9]
      5 [0xc0, 0xc0, 0xc1, 3, 0xf9] [] [0xc0, 0xc1, 3, 0xf9] [] [0xc1, 3, 0xf9]
      .overflow (by decide) (by decide) (by decide) (by decide)
      (Or.inr ⟨some [3], [0xf9], by decide, by decide, by decide⟩)).2⟩

/-- C8: removing the last byte of a valid `Block<T>` encoding makes the
decode fail with `InputTooShort`: the declared list payload length now
exceeds the remaining input, so no silently truncated value is produced. -/
theorem truncated_encoding_input_too_short (cs : Codecs T H W R)
    (b : Block T H W R)
    (hsz : ((HelperRef.ofBlock b).payloadBytes cs).length < 2 ^ 64) :
    Block.decodeBytes cs ((Block.encodeBytes cs b).dropLast) =
      .error .inputTooShort := by
  have hne : (HelperRef.ofBlock b).payloadBytes cs ≠ [] := by
    unfold HelperRef.payloadBytes
    intro hc
    exact cs.h.enc_ne_nil _ (List.append_eq_nil.mp hc).1
  unfold Block.decodeBytes Helper.decodeBytes Block.encodeBytes HelperRef.encodeBytes
  rw [parseListHeader_truncated _ hne hsz, exbind_err, exbind_err]

theorem truncated_encoding_input_too_short_witness :
    ((HelperRef.ofBlock sampleBlock).payloadBytes sampleCodecs).length < 2 ^ 64 ∧
      Block.decodeBytes sampleCodecs
          ((Block.encodeBytes sampleCodecs sampleBlock).dropLast) =
        .error .inputTooShort :=
  ⟨by decide,
    truncated_encoding_input_too_short sampleCodecs sampleBlock (by decide)⟩

/-- C9: if bytes remain inside the list payload after all declared fields
(required and both optional) have been decoded, the decode fails with
`TrailingBytes`. -/
theorem leftover_payload_trailing_bytes (cs : Codecs T H W R) (hd : H)
    (txs : List T) (omm : List H) (w : List W) (r : R) (junk : Bytes)
    (hj : junk ≠ [])
    (h1 : (encSeq cs.t.enc txs).length < 2 ^ 64)
    (h2 : (encSeq cs.h.enc omm).length < 2 ^ 64)
    (h3 : (encSeq cs.w.enc w).length < 2 ^ 64)
    (h4 : (HelperRef.payloadBytes cs ⟨hd, txs, omm, some w, some r⟩ ++ junk).length <
      2 ^ 64) :
    Block.decodeBytes cs
        (encodeLength 0xc0
            (HelperRef.payloadBytes cs ⟨hd, txs, omm, some w, some r⟩ ++ junk).length ++
          (HelperRef.payloadBytes cs ⟨hd, txs, omm, some w, some r⟩ ++ junk)) =
      .error .trailingBytes := by
  unfold Block.decodeBytes Helper.decodeBytes
  have hparse := parseListHeader_enc
    (HelperRef.payloadBytes cs ⟨hd, txs, omm, some w, some r⟩ ++ junk) [] h4
  rw [List.append_nil] at hparse
  rw [hparse]
  simp only [exbind_ok]
  rw [List.take_length]
  unfold HelperRef.payloadBytes
  simp only [optBytes, List.append_assoc]
  rw [cs.h.dec_enc]
  simp only [exbind_ok]
  rw [decVec_encVec cs.t _ _ h1]
  simp only [exbind_ok]
  rw [decVec_encVec cs.h _ _ h2]
  simp only [exbind_ok]
  rw [decodeOptional_ok (fun hc => encVec_ne_nil cs.w w (List.append_eq_nil.mp hc).1)
    (decVec_encVec cs.w w _ h3)]
  simp only [exbind_ok]
  rw [decodeOptional_ok (fun hc => cs.r.enc_ne_nil r (List.append_eq_nil.mp hc).1)
    (cs.r.dec_enc r junk)]
  simp only [exbind_ok]
  rw [if_neg hj]
  simp only [exbind_err]

theorem leftover_payload_trailing_bytes_witness :
    (([0x01] : Bytes) ≠ []) ∧
      Block.decodeBytes sampleCodecs
          (encodeLength 0xc0
              (HelperRef.payloadBytes sampleCodecs
                  (⟨9, [1, 2], [7], some [3], some 4⟩ :
                    HelperRef (Fin 128) (Fin 128) (Fin 128) (Fin 128)) ++
                [0x01]).length ++
            (HelperRef.payloadBytes sampleCodecs
                (⟨9, [1, 2], [7], some [3], some 4⟩ :
                  HelperRef (Fin 128) (Fin 128) (Fin 128) (Fin 128)) ++
              [0x01])) =
        .error .trailingBytes :=
  ⟨by decide,
    leftover_payload_trailing_bytes sampleCodecs 9 [1, 2] [7] [3] 4 [0x01]
      (by decide) (by decide) (by decide) (by decide) (by decide)⟩

end BlockRlp
